import Mathlib

/-!
Verification of the trajectory engine of the ballistic flight simulator
in `lab01/main.py`.  The physics core — the drag-force helper, the
explicit-Euler state update, the `while y >= 0` integration loop and the
result assembly — is embedded over `ℝ`.  The loop is modelled as a
fuel-indexed recursion that returns `none` when the fuel runs out before
the stopping condition fires, so `run_simulation p fuel = some r` states
that the run terminates within `fuel` iterations with result `r`.
-/

noncomputable section

namespace Ballistic

/-- Launch and physical parameters, mirroring the dictionary built by
`get_parameters`: initial speed `v0`, launch `angle` in degrees, `mass`,
air density `rho`, drag coefficient `Cd`, cross-section area `A`, and
time step `dt`. -/
structure SimParams where
  v0 : ℝ
  angle : ℝ
  mass : ℝ
  rho : ℝ
  Cd : ℝ
  A : ℝ
  dt : ℝ

/-- Result record, mirroring the `SimulationResult` dataclass. -/
structure SimulationResult where
  dt : ℝ
  trajectory : List (ℝ × ℝ)
  speeds : List ℝ
  range : ℝ
  max_height : ℝ
  final_speed : ℝ

/-- Gravitational constant, `self.g = 9.81`. -/
def g : ℝ := 9.81

/-- Degree-to-radian conversion, `math.radians`. -/
def radians (deg : ℝ) : ℝ := deg * Real.pi / 180

/-- Drag magnitude, `calculate_drag_force`:
`0.5 * params['rho'] * params['Cd'] * params['A'] * v ** 2`. -/
def calculate_drag_force (v : ℝ) (p : SimParams) : ℝ :=
  0.5 * p.rho * p.Cd * p.A * v ^ 2

/-- The mutable state of the integration loop in `run_simulation`. -/
structure SimState where
  x : ℝ
  y : ℝ
  vx : ℝ
  vy : ℝ
  t : ℝ
  trajectory : List (ℝ × ℝ)
  speeds : List ℝ
  max_height : ℝ

/-- Current speed magnitude, `v = math.sqrt(vx ** 2 + vy ** 2)`. -/
def v_of (s : SimState) : ℝ := Real.sqrt (s.vx ^ 2 + s.vy ^ 2)

/-- Horizontal acceleration,
`ax = -drag * vx / (params['mass'] * v) if v > 0 else 0`. -/
def ax_of (p : SimParams) (s : SimState) : ℝ :=
  if 0 < v_of s then
    -(calculate_drag_force (v_of s) p) * s.vx / (p.mass * v_of s)
  else 0

/-- Vertical acceleration,
`ay = -self.g - drag * vy / (params['mass'] * v) if v > 0 else -self.g`. -/
def ay_of (p : SimParams) (s : SimState) : ℝ :=
  if 0 < v_of s then
    -g - calculate_drag_force (v_of s) p * s.vy / (p.mass * v_of s)
  else -g

/-- One iteration of the `while y >= 0` loop body: Euler update of the
velocity from the acceleration at the start of the step, then of the
position from the new velocity, time accumulation, appending of the new
sample and speed, and apex update. -/
def step (p : SimParams) (s : SimState) : SimState :=
  let vx := s.vx + ax_of p s * p.dt
  let vy := s.vy + ay_of p s * p.dt
  let x := s.x + vx * p.dt
  let y := s.y + vy * p.dt
  { x := x, y := y, vx := vx, vy := vy, t := s.t + p.dt,
    trajectory := s.trajectory ++ [(x, y)],
    speeds := s.speeds ++ [Real.sqrt (vx * vx + vy * vy)],
    max_height := if s.max_height < y then y else s.max_height }

/-- The initialization before the loop: position at the origin, velocity
components from the initial speed and the angle converted to radians,
singleton trajectory and speed lists, zero time and apex. -/
def initState (p : SimParams) : SimState :=
  let angle_rad := radians p.angle
  let vx := p.v0 * Real.cos angle_rad
  let vy := p.v0 * Real.sin angle_rad
  { x := 0, y := 0, vx := vx, vy := vy, t := 0,
    trajectory := [(0, 0)],
    speeds := [Real.sqrt (vx * vx + vy * vy)],
    max_height := 0 }

/-- The `while y >= 0` loop with explicit fuel: `none` means the fuel was
exhausted with the stopping condition not yet reached. -/
def loop (p : SimParams) : ℕ → SimState → Option SimState
  | fuel + 1, s => if 0 ≤ s.y then loop p fuel (step p s) else some s
  | 0, s => if 0 ≤ s.y then none else some s

/-- Assembly of the returned `SimulationResult`. -/
def mkResult (p : SimParams) (s : SimState) : SimulationResult :=
  { dt := p.dt, trajectory := s.trajectory, speeds := s.speeds,
    range := s.x, max_height := s.max_height,
    final_speed := s.speeds.getLastD 0 }

/-- The computational core of `run_simulation`: initialize, iterate the
loop, assemble the result. -/
def run_simulation (p : SimParams) (fuel : ℕ) : Option SimulationResult :=
  (loop p fuel (initState p)).map (mkResult p)

/-- Flight duration as the results table derives it in `update_table`:
`flight_time = len(r.trajectory) * r.dt`. -/
def flight_time (r : SimulationResult) : ℝ := r.trajectory.length * r.dt

/-- Concrete parameters for witnesses: unit speed, horizontal launch,
unit mass, no drag, unit time step. -/
def wp : SimParams := ⟨1, 0, 1, 0, 0, 0, 1⟩

/-- The loop state after the single step a run with `wp` performs. -/
def ws : SimState :=
  ⟨1, -9.81, 1, -9.81, 1, [(0, 0), (1, -9.81)], [1, Real.sqrt 97.2361], 0⟩

/-- The result of the run with `wp`. -/
def wr : SimulationResult := mkResult wp ws

/-- Parameters identical to `wp` except for a larger drag coefficient;
with zero air density the drag force still vanishes. -/
def cpHigh : SimParams := ⟨1, 0, 1, 0, 1, 0, 1⟩

/-- The result of the run with `cpHigh`. -/
def crHigh : SimulationResult := mkResult cpHigh ws

/-- Parameters with positive air density and area but zero drag
coefficient. -/
def apLow : SimParams := ⟨1, 0, 1, 2, 0, 1, 1⟩

/-- Parameters identical to `apLow` except for drag coefficient one. -/
def apHigh : SimParams := ⟨1, 0, 1, 2, 1, 1, 1⟩

/-- The loop state after the single step a run with `apHigh` performs. -/
def asHigh : SimState :=
  ⟨0, -9.81, 0, -9.81, 1, [(0, 0), (0, -9.81)], [1, Real.sqrt 96.2361], 0⟩

/-- The result of the run with `apLow`. -/
def arLow : SimulationResult := mkResult apLow ws

/-- The result of the run with `apHigh`. -/
def arHigh : SimulationResult := mkResult apHigh asHigh

/-- A loop state at rest, for exercising the zero-speed guard. -/
def zs : SimState := ⟨0, 0, 0, 0, 0, [(0, 0)], [0], 0⟩

theorem loop_zero (p : SimParams) (s : SimState) :
    loop p 0 s = if 0 ≤ s.y then none else some s := rfl

theorem loop_succ (p : SimParams) (fuel : ℕ) (s : SimState) :
    loop p (fuel + 1) s = if 0 ≤ s.y then loop p fuel (step p s) else some s := rfl

theorem loop_neg (p : SimParams) {s : SimState} (hy : ¬ 0 ≤ s.y) (fuel : ℕ) :
    loop p fuel s = some s := by
  cases fuel with
  | zero => rw [loop_zero, if_neg hy]
  | succ n => rw [loop_succ, if_neg hy]

/-- Every invariant preserved by the loop body holds at the exit state,
and the exit state has negative height. -/
theorem loop_inv (p : SimParams) (I : SimState → Prop)
    (hI : ∀ s, 0 ≤ s.y → I s → I (step p s)) :
    ∀ fuel s s', loop p fuel s = some s' → I s → I s' ∧ s'.y < 0 := by
  intro fuel
  induction fuel with
  | zero =>
    intro s s' h hs
    by_cases hy : 0 ≤ s.y
    · rw [loop_zero, if_pos hy] at h
      exact absurd h (by simp)
    · rw [loop_zero, if_neg hy] at h
      cases h
      exact ⟨hs, lt_of_not_le hy⟩
  | succ n ih =>
    intro s s' h hs
    by_cases hy : 0 ≤ s.y
    · rw [loop_succ, if_pos hy] at h
      exact ih _ _ h (hI s hy hs)
    · rw [loop_succ, if_neg hy] at h
      cases h
      exact ⟨hs, lt_of_not_le hy⟩

/-- A terminating loop started at a state with nonnegative height has
positive fuel and takes at least one step. -/
theorem loop_succ_elim (p : SimParams) {fuel : ℕ} {s s' : SimState}
    (h : loop p fuel s = some s') (hy : 0 ≤ s.y) :
    ∃ n, fuel = n + 1 ∧ loop p n (step p s) = some s' := by
  cases fuel with
  | zero =>
    rw [loop_zero, if_pos hy] at h
    exact absurd h (by simp)
  | succ n =>
    rw [loop_succ, if_pos hy] at h
    exact ⟨n, rfl, h⟩

/-- The loop result does not depend on the fuel, as long as the fuel
suffices for termination. -/
theorem loop_confluent (p : SimParams) :
    ∀ fuel₁ fuel₂ s a b, loop p fuel₁ s = some a → loop p fuel₂ s = some b →
      a = b := by
  intro fuel₁
  induction fuel₁ with
  | zero =>
    intro fuel₂ s a b ha hb
    by_cases hy : 0 ≤ s.y
    · rw [loop_zero, if_pos hy] at ha
      exact absurd ha (by simp)
    · rw [loop_neg p hy] at ha hb
      cases ha; cases hb; rfl
  | succ n ih =>
    intro fuel₂ s a b ha hb
    by_cases hy : 0 ≤ s.y
    · rw [loop_succ, if_pos hy] at ha
      obtain ⟨m, rfl, hb'⟩ := loop_succ_elim p hb hy
      exact ih m (step p s) a b ha hb'
    · rw [loop_neg p hy] at ha hb
      cases ha; cases hb; rfl

/-- Destructuring of a terminating run into its final loop state. -/
theorem run_elim {p : SimParams} {fuel : ℕ} {r : SimulationResult}
    (h : run_simulation p fuel = some r) :
    ∃ s, loop p fuel (initState p) = some s ∧ r = mkResult p s := by
  unfold run_simulation at h
  cases hl : loop p fuel (initState p) with
  | none => rw [hl] at h; exact absurd h (by simp)
  | some s =>
    rw [hl] at h
    simp only [Option.map_some'] at h
    exact ⟨s, rfl, (Option.some.inj h).symm⟩

/-- Initialization at unit speed and horizontal launch. -/
theorem initState_eq (p : SimParams) (h1 : p.v0 = 1) (h2 : p.angle = 0) :
    initState p = ⟨0, 0, 1, 0, 0, [(0, 0)], [1], 0⟩ := by
  norm_num [initState, radians, h1, h2, Real.sqrt_one]

theorem init_wp : initState wp = ⟨0, 0, 1, 0, 0, [(0, 0)], [1], 0⟩ :=
  initState_eq wp rfl rfl

theorem step_wp : step wp (initState wp) = ws := by
  rw [init_wp]
  norm_num [step, ax_of, ay_of, v_of, calculate_drag_force, wp, g, ws,
    Real.sqrt_one]

theorem ws_y_neg : ¬ 0 ≤ ws.y := by norm_num [ws]

theorem loop_wp : loop wp 1 (initState wp) = some ws := by
  rw [loop_succ, if_pos (by rw [init_wp]), step_wp,
    loop_zero, if_neg ws_y_neg]

theorem loop_wp2 : loop wp 2 (initState wp) = some ws := by
  rw [loop_succ, if_pos (by rw [init_wp]), step_wp,
    loop_neg wp ws_y_neg 1]

theorem run_wp : run_simulation wp 1 = some wr := by
  unfold run_simulation
  rw [loop_wp]
  rfl

theorem run_wp2 : run_simulation wp 2 = some wr := by
  unfold run_simulation
  rw [loop_wp2]
  rfl

theorem init_cpHigh : initState cpHigh = ⟨0, 0, 1, 0, 0, [(0, 0)], [1], 0⟩ :=
  initState_eq cpHigh rfl rfl

theorem step_cpHigh : step cpHigh (initState cpHigh) = ws := by
  rw [init_cpHigh]
  norm_num [step, ax_of, ay_of, v_of, calculate_drag_force, cpHigh, g, ws,
    Real.sqrt_one]

theorem run_cpHigh : run_simulation cpHigh 1 = some crHigh := by
  unfold run_simulation
  rw [loop_succ, if_pos (by rw [init_cpHigh]), step_cpHigh,
    loop_zero, if_neg ws_y_neg]
  rfl

theorem init_apLow : initState apLow = ⟨0, 0, 1, 0, 0, [(0, 0)], [1], 0⟩ :=
  initState_eq apLow rfl rfl

theorem step_apLow : step apLow (initState apLow) = ws := by
  rw [init_apLow]
  norm_num [step, ax_of, ay_of, v_of, calculate_drag_force, apLow, g, ws,
    Real.sqrt_one]

theorem run_apLow : run_simulation apLow 1 = some arLow := by
  unfold run_simulation
  rw [loop_succ, if_pos (by rw [init_apLow]), step_apLow,
    loop_zero, if_neg ws_y_neg]
  rfl

theorem init_apHigh : initState apHigh = ⟨0, 0, 1, 0, 0, [(0, 0)], [1], 0⟩ :=
  initState_eq apHigh rfl rfl

theorem step_apHigh : step apHigh (initState apHigh) = asHigh := by
  rw [init_apHigh]
  norm_num [step, ax_of, ay_of, v_of, calculate_drag_force, apHigh, g, asHigh,
    Real.sqrt_one]

theorem run_apHigh : run_simulation apHigh 1 = some arHigh := by
  unfold run_simulation
  rw [loop_succ, if_pos (by rw [init_apHigh]), step_apHigh,
    loop_zero, if_neg (by norm_num [asHigh])]
  rfl

/-- Claim C1: each iteration of the integration loop performs exactly one
explicit-Euler step with g = 9.81: the new velocity comes from the
acceleration computed at the start of the step, and the new position is
then computed from the new velocity. -/
theorem euler_step_spec (p : SimParams) (s : SimState) (fuel : ℕ)
    (hy : 0 ≤ s.y) (hv : 0 < v_of s) :
    loop p (fuel + 1) s = loop p fuel (step p s) ∧
    (step p s).vx = s.vx +
      -(0.5 * p.rho * p.Cd * p.A * v_of s ^ 2) * s.vx / (p.mass * v_of s)
        * p.dt ∧
    (step p s).vy = s.vy +
      (-9.81 - 0.5 * p.rho * p.Cd * p.A * v_of s ^ 2 * s.vy
        / (p.mass * v_of s)) * p.dt ∧
    (step p s).x = s.x + (step p s).vx * p.dt ∧
    (step p s).y = s.y + (step p s).vy * p.dt := by
  refine ⟨by rw [loop_succ, if_pos hy], ?_, ?_, ?_, ?_⟩ <;>
    simp [step, ax_of, ay_of, calculate_drag_force, g, hv]

/-- Claim C2: the scalar drag magnitude is
0.5 · airDensity · dragCoefficient · crossSectionArea · v² with
v² = vx² + vy², and for positive speed the acceleration components are
ax = −drag·vx/(mass·v) and ay = −g − drag·vy/(mass·v). -/
theorem drag_accel_spec (p : SimParams) (s : SimState) (hv : 0 < v_of s) :
    calculate_drag_force (v_of s) p
        = 0.5 * p.rho * p.Cd * p.A * (s.vx ^ 2 + s.vy ^ 2) ∧
    ax_of p s = -(calculate_drag_force (v_of s) p) * s.vx
        / (p.mass * v_of s) ∧
    ay_of p s = -9.81 - calculate_drag_force (v_of s) p * s.vy
        / (p.mass * v_of s) := by
  refine ⟨?_, by rw [ax_of, if_pos hv], by rw [ay_of, if_pos hv, g]⟩
  unfold calculate_drag_force v_of
  rw [Real.sq_sqrt (by positivity)]

/-- Claim C3: a terminating run stops the first time a computed height is
negative; that sub-zero sample is recorded as the last trajectory entry,
every earlier sample has nonnegative height, and the result reads range,
final speed and time step off that final state with no interpolation. -/
theorem stop_below_ground_spec (p : SimParams) (fuel : ℕ)
    (r : SimulationResult) (hdt : 0 < p.dt)
    (h : run_simulation p fuel = some r) :
    r.trajectory ≠ [] ∧ r.speeds ≠ [] ∧
    (r.trajectory.getLastD (0, 0)).2 < 0 ∧
    (∀ q ∈ r.trajectory.dropLast, 0 ≤ q.2) ∧
    r.range = (r.trajectory.getLastD (0, 0)).1 ∧
    r.final_speed = r.speeds.getLastD 0 ∧
    r.dt = p.dt := by
  obtain ⟨s, hl, rfl⟩ := run_elim h
  have hstep : ∀ t : SimState, 0 ≤ t.y →
      ((∃ l, t.trajectory = l ++ [(t.x, t.y)] ∧ ∀ q ∈ l, 0 ≤ q.2) ∧
        t.speeds ≠ []) →
      ((∃ l, (step p t).trajectory
          = l ++ [((step p t).x, (step p t).y)] ∧ ∀ q ∈ l, 0 ≤ q.2) ∧
        (step p t).speeds ≠ []) := by
    rintro t hy ⟨⟨l, htr, hall⟩, hsp⟩
    refine ⟨⟨t.trajectory, by simp [step], ?_⟩, by simp [step]⟩
    intro q hq
    rw [htr] at hq
    rcases List.mem_append.mp hq with hq | hq
    · exact hall q hq
    · rcases List.mem_singleton.mp hq with rfl
      exact hy
  have hinit : (∃ l, (initState p).trajectory
      = l ++ [((initState p).x, (initState p).y)] ∧ ∀ q ∈ l, 0 ≤ q.2) ∧
      (initState p).speeds ≠ [] :=
    ⟨⟨[], by simp [initState], by simp⟩, by simp [initState]⟩
  obtain ⟨⟨⟨l, htr, hall⟩, hsp⟩, hyneg⟩ := loop_inv p _ hstep fuel _ s hl hinit
  refine ⟨by simp [mkResult, htr], by simpa [mkResult] using hsp, ?_, ?_, ?_,
    rfl, rfl⟩
  · simp [mkResult, htr, List.getLastD_concat]
    exact hyneg
  · simp only [mkResult, htr, List.dropLast_concat]
    exact hall
  · simp [mkResult, htr, List.getLastD_concat]

/-- Claim C4: a terminating run with positive initial speed has equally
long trajectory and speed lists of length at least two, starting at the
origin sample and the initial speed, and the initial velocity components
come from the launch angle converted to radians. -/
theorem trajectory_init_spec (p : SimParams) (fuel : ℕ)
    (r : SimulationResult) (hv0 : 0 < p.v0) (hdt : 0 < p.dt)
    (h : run_simulation p fuel = some r) :
    r.trajectory.length = r.speeds.length ∧
    2 ≤ r.trajectory.length ∧
    r.trajectory.head? = some (0, 0) ∧
    r.speeds.head? = some p.v0 ∧
    (initState p).vx = p.v0 * Real.cos (radians p.angle) ∧
    (initState p).vy = p.v0 * Real.sin (radians p.angle) := by
  obtain ⟨s, hl, rfl⟩ := run_elim h
  have hsqrt : Real.sqrt ((p.v0 * Real.cos (radians p.angle))
        * (p.v0 * Real.cos (radians p.angle))
      + (p.v0 * Real.sin (radians p.angle))
        * (p.v0 * Real.sin (radians p.angle))) = p.v0 := by
    have hsc := Real.sin_sq_add_cos_sq (radians p.angle)
    have harg : (p.v0 * Real.cos (radians p.angle))
          * (p.v0 * Real.cos (radians p.angle))
        + (p.v0 * Real.sin (radians p.angle))
          * (p.v0 * Real.sin (radians p.angle)) = p.v0 ^ 2 := by
      nlinarith [hsc]
    rw [harg, Real.sqrt_sq hv0.le]
  have hstep : ∀ t : SimState, 0 ≤ t.y →
      (t.trajectory.length = t.speeds.length ∧
        t.trajectory.head? = some (0, 0) ∧ t.speeds.head? = some p.v0) →
      ((step p t).trajectory.length = (step p t).speeds.length ∧
        (step p t).trajectory.head? = some (0, 0) ∧
        (step p t).speeds.head? = some p.v0) := by
    rintro t _ ⟨hlen, htr, hsp⟩
    refine ⟨by simp [step, hlen], ?_, ?_⟩
    · cases htr' : t.trajectory with
      | nil => rw [htr'] at htr; simp at htr
      | cons a tl =>
        rw [htr'] at htr
        simp at htr
        simp [step, htr', htr]
    · cases hsp' : t.speeds with
      | nil => rw [hsp'] at hsp; simp at hsp
      | cons a tl =>
        rw [hsp'] at hsp
        simp at hsp
        simp [step, hsp', hsp]
  have hinit : (initState p).trajectory.length = (initState p).speeds.length ∧
      (initState p).trajectory.head? = some (0, 0) ∧
      (initState p).speeds.head? = some p.v0 := by
    refine ⟨by simp [initState], by simp [initState], ?_⟩
    simp only [initState]
    rw [hsqrt]
    rfl
  obtain ⟨⟨hlen, htr, hsp⟩, _⟩ := loop_inv p _ hstep fuel _ s hl hinit
  have hy0 : 0 ≤ (initState p).y := by simp [initState]
  obtain ⟨n, rfl, hln⟩ := loop_succ_elim p hl hy0
  have hlen2 : 2 ≤ (step p (initState p)).trajectory.length := by
    simp [step, initState]
  obtain ⟨hge2, _⟩ := loop_inv p (fun t => 2 ≤ t.trajectory.length)
    (by intro t _ ht; simp [step]; omega) n _ s hln hlen2
  exact ⟨by simpa [mkResult] using hlen, by simpa [mkResult] using hge2,
    by simpa [mkResult] using htr, by simpa [mkResult] using hsp,
    by simp [initState], by simp [initState]⟩

/-- Claim C5: the returned maximum height bounds every sampled height
from above and is attained by some trajectory sample, so it equals the
exact maximum of the sampled heights. -/
theorem max_height_spec (p : SimParams) (fuel : ℕ) (r : SimulationResult)
    (h : run_simulation p fuel = some r) :
    (∀ q ∈ r.trajectory, q.2 ≤ r.max_height) ∧
    ∃ q ∈ r.trajectory, q.2 = r.max_height := by
  obtain ⟨s, hl, rfl⟩ := run_elim h
  have hstep : ∀ t : SimState, 0 ≤ t.y →
      ((∀ q ∈ t.trajectory, q.2 ≤ t.max_height) ∧
        ∃ q ∈ t.trajectory, q.2 = t.max_height) →
      ((∀ q ∈ (step p t).trajectory, q.2 ≤ (step p t).max_height) ∧
        ∃ q ∈ (step p t).trajectory, q.2 = (step p t).max_height) := by
    rintro t _ ⟨hub, q0, hq0, hq0eq⟩
    have htr : (step p t).trajectory = t.trajectory
        ++ [((step p t).x, (step p t).y)] := by simp [step]
    have hmono : t.max_height ≤ (step p t).max_height := by
      simp only [step]
      split
      · linarith [le_of_lt (by assumption : t.max_height < _)]
      · exact le_refl _
    by_cases hc : t.max_height < (step p t).y
    · have hmh : (step p t).max_height = (step p t).y := by
        simp only [step] at hc ⊢
        rw [if_pos hc]
      constructor
      · intro q hq
        rw [htr] at hq
        rcases List.mem_append.mp hq with hq | hq
        · exact le_trans (hub q hq) hmono
        · rcases List.mem_singleton.mp hq with rfl
          simp [hmh]
      · exact ⟨((step p t).x, (step p t).y), by simp [htr], by simp [hmh]⟩
    · have hmh : (step p t).max_height = t.max_height := by
        simp only [step] at hc ⊢
        rw [if_neg hc]
      constructor
      · intro q hq
        rw [htr] at hq
        rcases List.mem_append.mp hq with hq | hq
        · exact hmh ▸ hub q hq
        · rcases List.mem_singleton.mp hq with rfl
          rw [hmh]
          exact le_of_not_lt hc
      · exact ⟨q0, by simp [htr, hq0], by rw [hq0eq, hmh]⟩
  have hinit : (∀ q ∈ (initState p).trajectory,
        q.2 ≤ (initState p).max_height) ∧
      ∃ q ∈ (initState p).trajectory, q.2 = (initState p).max_height := by
    simp [initState]
  obtain ⟨⟨hub, hat⟩, _⟩ := loop_inv p _ hstep fuel _ s hl hinit
  exact ⟨by simpa [mkResult] using hub, by simpa [mkResult] using hat⟩

/-- Claim C7: at every loop state the division by mass·v is guarded by
v > 0, where v = 0 exactly when both velocity components vanish; in the
zero-speed branch the accelerations are 0 and −g, and in the positive
branch the divisor mass·v is nonzero, so no division by zero occurs. -/
theorem div_guard_spec (p : SimParams) (s : SimState) (hm : 0 < p.mass) :
    (v_of s = 0 ↔ s.vx = 0 ∧ s.vy = 0) ∧
    (v_of s = 0 → ax_of p s = 0 ∧ ay_of p s = -9.81) ∧
    (0 < v_of s → p.mass * v_of s ≠ 0 ∧
      ax_of p s = -(calculate_drag_force (v_of s) p) * s.vx
        / (p.mass * v_of s)) := by
  refine ⟨?_, ?_, ?_⟩
  · constructor
    · intro h0
      have hle : s.vx ^ 2 + s.vy ^ 2 ≤ 0 := Real.sqrt_eq_zero'.mp h0
      constructor
      · have : s.vx ^ 2 = 0 := by nlinarith [sq_nonneg s.vx, sq_nonneg s.vy]
        exact pow_eq_zero_iff two_ne_zero |>.mp this
      · have : s.vy ^ 2 = 0 := by nlinarith [sq_nonneg s.vx, sq_nonneg s.vy]
        exact pow_eq_zero_iff two_ne_zero |>.mp this
    · rintro ⟨h1, h2⟩
      simp [v_of, h1, h2]
  · intro h0
    have hnv : ¬ 0 < v_of s := by rw [h0]; exact lt_irrefl 0
    simp [ax_of, ay_of, hnv, g]
  · intro hv
    exact ⟨ne_of_gt (mul_pos hm hv), by rw [ax_of, if_pos hv]⟩

/-- Claim C8: the simulation is deterministic; two terminating runs on
identical parameters return results identical in every field, including
the full trajectory and speed sequences, independently of the fuel. -/
theorem determinism_spec (p₁ p₂ : SimParams) (fuel₁ fuel₂ : ℕ)
    (r₁ r₂ : SimulationResult) (hp : p₁ = p₂)
    (h₁ : run_simulation p₁ fuel₁ = some r₁)
    (h₂ : run_simulation p₂ fuel₂ = some r₂) :
    r₁.dt = r₂.dt ∧ r₁.trajectory = r₂.trajectory ∧
    r₁.speeds = r₂.speeds ∧ r₁.range = r₂.range ∧
    r₁.max_height = r₂.max_height ∧ r₁.final_speed = r₂.final_speed := by
  subst hp
  obtain ⟨s₁, hl₁, rfl⟩ := run_elim h₁
  obtain ⟨s₂, hl₂, rfl⟩ := run_elim h₂
  cases loop_confluent p₁ fuel₁ fuel₂ _ s₁ s₂ hl₁ hl₂
  exact ⟨rfl, rfl, rfl, rfl, rfl, rfl⟩

/-- A run that terminates with fuel one performs exactly one loop
iteration, stepping once from the initial state. -/
theorem run_one_elim (p : SimParams) (r : SimulationResult)
    (h : run_simulation p 1 = some r) :
    r = mkResult p (step p (initState p)) ∧
    ¬ 0 ≤ (step p (initState p)).y := by
  obtain ⟨s, hl, rfl⟩ := run_elim h
  have hy0 : 0 ≤ (initState p).y := by simp [initState]
  rw [loop_succ, if_pos hy0] at hl
  by_cases hy1 : 0 ≤ (step p (initState p)).y
  · rw [loop_zero, if_pos hy1] at hl
    exact absurd hl (by simp)
  · rw [loop_zero, if_neg hy1] at hl
    cases hl
    exact ⟨rfl, hy1⟩

/-- Closed form of the range of a run that terminates in one step. -/
theorem range_one_step (p : SimParams) (r : SimulationResult)
    (h : run_simulation p 1 = some r) :
    r.range = ((initState p).vx + ax_of p (initState p) * p.dt) * p.dt := by
  obtain ⟨rfl, _⟩ := run_one_elim p r h
  have hx : (initState p).x = 0 := by simp [initState]
  simp [mkResult, step, hx]

/-- Claim C9 as stated is false on the code: with zero air density the
drag force vanishes for every drag coefficient, the two runs coincide,
and the run with the strictly larger drag coefficient has an equal
range although the horizontal velocity is nonzero. -/
theorem drag_monotonicity_cex :
    wp.v0 = cpHigh.v0 ∧ wp.angle = cpHigh.angle ∧ wp.mass = cpHigh.mass ∧
    wp.rho = cpHigh.rho ∧ wp.A = cpHigh.A ∧ wp.dt = cpHigh.dt ∧
    wp.Cd < cpHigh.Cd ∧
    run_simulation wp 1 = some wr ∧
    run_simulation cpHigh 1 = some crHigh ∧
    (initState wp).vx ≠ 0 ∧
    ¬ (crHigh.range < wr.range ∨
        ((initState wp).vx = 0 ∧ crHigh.range = wr.range)) := by
  refine ⟨rfl, rfl, rfl, rfl, rfl, rfl, by norm_num [wp, cpHigh], run_wp,
    run_cpHigh, by rw [init_wp]; norm_num, ?_⟩
  rintro (hlt | ⟨hvx, _⟩)
  · norm_num [crHigh, wr, mkResult, ws] at hlt
  · rw [init_wp] at hvx
    norm_num at hvx

/-- Claim C9 amended: for terminating runs differing only in the drag
coefficient, the ranges are equal whenever the initial horizontal
velocity is zero; and for runs that terminate on the first integration
step, with positive mass and time step, nonnegative air density, area
and initial horizontal velocity, the larger drag coefficient yields a
range at most as large, strictly smaller when the horizontal velocity,
air density and area are all positive. -/
theorem drag_monotonicity_amended (p₁ p₂ : SimParams)
    (h0 : p₂.v0 = p₁.v0) (h1 : p₂.angle = p₁.angle)
    (h2 : p₂.mass = p₁.mass) (h3 : p₂.rho = p₁.rho) (h4 : p₂.A = p₁.A)
    (h5 : p₂.dt = p₁.dt) (hCd : p₁.Cd < p₂.Cd) :
    (∀ fuel₁ fuel₂ r₁ r₂, (initState p₁).vx = 0 →
        run_simulation p₁ fuel₁ = some r₁ →
        run_simulation p₂ fuel₂ = some r₂ → r₁.range = r₂.range) ∧
    (∀ r₁ r₂, 0 < p₁.mass → 0 < p₁.dt → 0 ≤ p₁.rho → 0 ≤ p₁.A →
        0 ≤ (initState p₁).vx →
        run_simulation p₁ 1 = some r₁ → run_simulation p₂ 1 = some r₂ →
        r₂.range ≤ r₁.range ∧
        (0 < (initState p₁).vx → 0 < p₁.rho → 0 < p₁.A →
          r₂.range < r₁.range)) := by
  have hinit2 : initState p₂ = initState p₁ := by
    unfold initState
    rw [h0, h1]
  constructor
  · intro fuel₁ fuel₂ r₁ r₂ hvx hr₁ hr₂
    have key : ∀ (p : SimParams) (fuel : ℕ) (r : SimulationResult),
        (initState p).vx = 0 → run_simulation p fuel = some r →
        r.range = 0 := by
      intro p fuel r hvx0 hr
      obtain ⟨s, hl, rfl⟩ := run_elim hr
      have hstep : ∀ t : SimState, 0 ≤ t.y → (t.vx = 0 ∧ t.x = 0) →
          ((step p t).vx = 0 ∧ (step p t).x = 0) := by
        rintro t _ ⟨hv, hx⟩
        have hax : ax_of p t = 0 := by
          unfold ax_of
          split
          · simp [hv]
          · rfl
        constructor <;> simp [step, hax, hv, hx]
      have hinit0 : (initState p).vx = 0 ∧ (initState p).x = 0 :=
        ⟨hvx0, by simp [initState]⟩
      obtain ⟨⟨_, hx0⟩, _⟩ := loop_inv p _ hstep fuel _ s hl hinit0
      simpa [mkResult] using hx0
    have hvx2 : (initState p₂).vx = 0 := by rw [hinit2]; exact hvx
    rw [key p₁ fuel₁ r₁ hvx hr₁, key p₂ fuel₂ r₂ hvx2 hr₂]
  · intro r₁ r₂ hm hdt hrho hA hvx hr₁ hr₂
    have hR₁ := range_one_step p₁ r₁ hr₁
    have hR₂ := range_one_step p₂ r₂ hr₂
    rw [hinit2, h5] at hR₂
    have hax : ax_of p₂ (initState p₁) ≤ ax_of p₁ (initState p₁) ∧
        (0 < (initState p₁).vx → 0 < p₁.rho → 0 < p₁.A →
          ax_of p₂ (initState p₁) < ax_of p₁ (initState p₁)) := by
      by_cases hv : 0 < v_of (initState p₁)
      · constructor
        · rw [ax_of, ax_of, if_pos hv, if_pos hv]
          unfold calculate_drag_force
          rw [h2, h3, h4]
          rw [div_le_div_iff_of_pos_right (mul_pos hm hv)]
          nlinarith [mul_nonneg (mul_nonneg hrho hA)
              (mul_nonneg (sq_nonneg (v_of (initState p₁))) hvx), hCd.le]
        · intro hvx0 hrho0 hA0
          rw [ax_of, ax_of, if_pos hv, if_pos hv]
          unfold calculate_drag_force
          rw [h2, h3, h4]
          rw [div_lt_div_iff_of_pos_right (mul_pos hm hv)]
          nlinarith [mul_pos (mul_pos hrho0 hA0)
              (mul_pos (pow_pos hv 2) hvx0), hCd]
      · have hax1 : ax_of p₁ (initState p₁) = 0 := by
          rw [ax_of, if_neg hv]
        have hax2 : ax_of p₂ (initState p₁) = 0 := by
          rw [ax_of, if_neg hv]
        refine ⟨by rw [hax1, hax2], ?_⟩
        intro hvx0 _ _
        exact absurd (Real.sqrt_pos.mpr
          (add_pos_of_pos_of_nonneg (pow_pos hvx0 2)
            (sq_nonneg (initState p₁).vy))) hv
    constructor
    · rw [hR₁, hR₂]
      have h1 : ax_of p₂ (initState p₁) * p₁.dt
          ≤ ax_of p₁ (initState p₁) * p₁.dt :=
        mul_le_mul_of_nonneg_right hax.1 hdt.le
      have h2 : (initState p₁).vx + ax_of p₂ (initState p₁) * p₁.dt
          ≤ (initState p₁).vx + ax_of p₁ (initState p₁) * p₁.dt := by
        linarith
      exact mul_le_mul_of_nonneg_right h2 hdt.le
    · intro hvx0 hrho0 hA0
      rw [hR₁, hR₂]
      have h1 : ax_of p₂ (initState p₁) * p₁.dt
          < ax_of p₁ (initState p₁) * p₁.dt :=
        mul_lt_mul_of_pos_right (hax.2 hvx0 hrho0 hA0) hdt
      have h2 : (initState p₁).vx + ax_of p₂ (initState p₁) * p₁.dt
          < (initState p₁).vx + ax_of p₁ (initState p₁) * p₁.dt := by
        linarith
      exact mul_lt_mul_of_pos_right h2 hdt

/-- Claim C10: on exit the accumulated time equals
(length of trajectory − 1)·dt, so the flight duration the results table
derives as length·dt exceeds the final simulated time by exactly one
time step. -/
theorem time_invariant_spec (p : SimParams) (fuel : ℕ) (s : SimState)
    (h : loop p fuel (initState p) = some s) :
    s.t = ((s.trajectory.length : ℝ) - 1) * p.dt ∧
    flight_time (mkResult p s) = s.t + p.dt := by
  have hstep : ∀ t : SimState, 0 ≤ t.y →
      t.t + p.dt = (t.trajectory.length : ℝ) * p.dt →
      (step p t).t + p.dt = ((step p t).trajectory.length : ℝ) * p.dt := by
    intro t _ ht
    simp only [step, List.length_append, List.length_singleton]
    push_cast
    linarith
  have hinit : (initState p).t + p.dt
      = ((initState p).trajectory.length : ℝ) * p.dt := by
    simp [initState]
  obtain ⟨ht, _⟩ := loop_inv p _ hstep fuel _ s h hinit
  constructor
  · linarith [ht]
  · simp only [flight_time, mkResult]
    linarith [ht]

theorem euler_step_spec_witness :
    0 ≤ (initState wp).y ∧ 0 < v_of (initState wp) ∧
    (loop wp (0 + 1) (initState wp)
        = loop wp 0 (step wp (initState wp)) ∧
      (step wp (initState wp)).vx = (initState wp).vx +
        -(0.5 * wp.rho * wp.Cd * wp.A * v_of (initState wp) ^ 2)
          * (initState wp).vx / (wp.mass * v_of (initState wp)) * wp.dt ∧
      (step wp (initState wp)).vy = (initState wp).vy +
        (-9.81 - 0.5 * wp.rho * wp.Cd * wp.A * v_of (initState wp) ^ 2
            * (initState wp).vy / (wp.mass * v_of (initState wp))) * wp.dt ∧
      (step wp (initState wp)).x = (initState wp).x
        + (step wp (initState wp)).vx * wp.dt ∧
      (step wp (initState wp)).y = (initState wp).y
        + (step wp (initState wp)).vy * wp.dt) := by
  have hy : 0 ≤ (initState wp).y := by rw [init_wp]
  have hv : 0 < v_of (initState wp) := by
    rw [init_wp]
    norm_num [v_of, Real.sqrt_one]
  exact ⟨hy, hv, euler_step_spec wp (initState wp) 0 hy hv⟩

theorem drag_accel_spec_witness :
    0 < v_of (initState wp) ∧
    (calculate_drag_force (v_of (initState wp)) wp
        = 0.5 * wp.rho * wp.Cd * wp.A
          * ((initState wp).vx ^ 2 + (initState wp).vy ^ 2) ∧
      ax_of wp (initState wp)
        = -(calculate_drag_force (v_of (initState wp)) wp)
          * (initState wp).vx / (wp.mass * v_of (initState wp)) ∧
      ay_of wp (initState wp) = -9.81
        - calculate_drag_force (v_of (initState wp)) wp * (initState wp).vy
          / (wp.mass * v_of (initState wp))) := by
  have hv : 0 < v_of (initState wp) := by
    rw [init_wp]
    norm_num [v_of, Real.sqrt_one]
  exact ⟨hv, drag_accel_spec wp (initState wp) hv⟩

theorem stop_below_ground_spec_witness :
    0 < wp.dt ∧ run_simulation wp 1 = some wr ∧
    (wr.trajectory ≠ [] ∧ wr.speeds ≠ [] ∧
      (wr.trajectory.getLastD (0, 0)).2 < 0 ∧
      (∀ q ∈ wr.trajectory.dropLast, 0 ≤ q.2) ∧
      wr.range = (wr.trajectory.getLastD (0, 0)).1 ∧
      wr.final_speed = wr.speeds.getLastD 0 ∧
      wr.dt = wp.dt) :=
  ⟨by norm_num [wp], run_wp,
    stop_below_ground_spec wp 1 wr (by norm_num [wp]) run_wp⟩

theorem trajectory_init_spec_witness :
    0 < wp.v0 ∧ 0 < wp.dt ∧ run_simulation wp 1 = some wr ∧
    (wr.trajectory.length = wr.speeds.length ∧
      2 ≤ wr.trajectory.length ∧
      wr.trajectory.head? = some (0, 0) ∧
      wr.speeds.head? = some wp.v0 ∧
      (initState wp).vx = wp.v0 * Real.cos (radians wp.angle) ∧
      (initState wp).vy = wp.v0 * Real.sin (radians wp.angle)) :=
  ⟨by norm_num [wp], by norm_num [wp], run_wp,
    trajectory_init_spec wp 1 wr (by norm_num [wp]) (by norm_num [wp]) run_wp⟩

theorem max_height_spec_witness :
    run_simulation wp 1 = some wr ∧
    ((∀ q ∈ wr.trajectory, q.2 ≤ wr.max_height) ∧
      ∃ q ∈ wr.trajectory, q.2 = wr.max_height) :=
  ⟨run_wp, max_height_spec wp 1 wr run_wp⟩

theorem div_guard_spec_witness :
    0 < wp.mass ∧
    ((v_of zs = 0 ↔ zs.vx = 0 ∧ zs.vy = 0) ∧
      (v_of zs = 0 → ax_of wp zs = 0 ∧ ay_of wp zs = -9.81) ∧
      (0 < v_of zs → wp.mass * v_of zs ≠ 0 ∧
        ax_of wp zs = -(calculate_drag_force (v_of zs) wp) * zs.vx
          / (wp.mass * v_of zs))) :=
  ⟨by norm_num [wp], div_guard_spec wp zs (by norm_num [wp])⟩

theorem determinism_spec_witness :
    wp = wp ∧ run_simulation wp 1 = some wr ∧
    run_simulation wp 2 = some wr ∧
    (wr.dt = wr.dt ∧ wr.trajectory = wr.trajectory ∧
      wr.speeds = wr.speeds ∧ wr.range = wr.range ∧
      wr.max_height = wr.max_height ∧ wr.final_speed = wr.final_speed) :=
  ⟨rfl, run_wp, run_wp2,
    determinism_spec wp wp 1 2 wr wr rfl run_wp run_wp2⟩

theorem drag_monotonicity_amended_witness :
    apHigh.v0 = apLow.v0 ∧ apHigh.angle = apLow.angle ∧
    apHigh.mass = apLow.mass ∧ apHigh.rho = apLow.rho ∧
    apHigh.A = apLow.A ∧ apHigh.dt = apLow.dt ∧ apLow.Cd < apHigh.Cd ∧
    0 < apLow.mass ∧ 0 < apLow.dt ∧ 0 ≤ apLow.rho ∧ 0 ≤ apLow.A ∧
    0 ≤ (initState apLow).vx ∧ 0 < (initState apLow).vx ∧
    0 < apLow.rho ∧ 0 < apLow.A ∧
    run_simulation apLow 1 = some arLow ∧
    run_simulation apHigh 1 = some arHigh ∧
    arHigh.range ≤ arLow.range ∧ arHigh.range < arLow.range := by
  have hCd : apLow.Cd < apHigh.Cd := by norm_num [apLow, apHigh]
  have hm : 0 < apLow.mass := by norm_num [apLow]
  have hdt : 0 < apLow.dt := by norm_num [apLow]
  have hrho : 0 ≤ apLow.rho := by norm_num [apLow]
  have hA : 0 ≤ apLow.A := by norm_num [apLow]
  have hvx : 0 ≤ (initState apLow).vx := by rw [init_apLow]; norm_num
  have hvxpos : 0 < (initState apLow).vx := by rw [init_apLow]; norm_num
  have hrhopos : 0 < apLow.rho := by norm_num [apLow]
  have hApos : 0 < apLow.A := by norm_num [apLow]
  obtain ⟨hle, hstrict⟩ := (drag_monotonicity_amended apLow apHigh rfl rfl
    rfl rfl rfl rfl hCd).2 arLow arHigh hm hdt hrho hA hvx run_apLow
    run_apHigh
  exact ⟨rfl, rfl, rfl, rfl, rfl, rfl, hCd, hm, hdt, hrho, hA, hvx, hvxpos,
    hrhopos, hApos, run_apLow, run_apHigh, hle, hstrict hvxpos hrhopos hApos⟩

theorem time_invariant_spec_witness :
    loop wp 1 (initState wp) = some ws ∧
    (ws.t = ((ws.trajectory.length : ℝ) - 1) * wp.dt ∧
      flight_time (mkResult wp ws) = ws.t + wp.dt) :=
  ⟨loop_wp, time_invariant_spec wp 1 ws loop_wp⟩

end Ballistic
